import Mathlib

/-!
Shallow embedding of the paularlott/logger repository: the logging contract,
the null backend, the capturing backend (testing/mock.go), the slog backend
with its custom console handler (slog/slog.go), and the zerolog backend
adapter.  Go machine details that the claims depend on are modelled
explicitly: slice headers with shared backing arrays for the mock's entry
sequence, and Go log/slog's documented conversion of variadic key/value
arguments (the !BADKEY convention).
-/

namespace LoggerRepo

/-- Escape character used by the ANSI colour codes in the console handler. -/
def esc : String := "\x1b"

/- Values carried by attributes: the subset of Go `any` values the claims
exercise (strings, integers, and slog group values whose payload is itself a
list of attributes).  `AList` is the attribute-list type, mutual with `SVal`
so that structural recursion over nested groups is available. -/
mutual
/-- Attribute values: string, integer, or nested group. -/
inductive SVal : Type where
  | s : String → SVal
  | i : Int → SVal
  | g : AList → SVal
deriving DecidableEq
/-- An ordered list of key/value attributes. -/
inductive AList : Type where
  | nil : AList
  | cons : String → SVal → AList → AList
deriving DecidableEq
end

namespace AList

/-- Append two attribute lists (Go: copy both into a fresh slice). -/
def app : AList → AList → AList
  | .nil, b => b
  | .cons k v r, b => .cons k v (app r b)

/-- The first value bound to key `k`, if any (Go: linear scan with break). -/
def find : AList → String → Option SVal
  | .nil, _ => none
  | .cons k v r, k' => if k = k' then some v else find r k'

/-- Number of attributes. -/
def len : AList → Nat
  | .nil => 0
  | .cons _ _ r => 1 + len r

/-- Convert to a plain Lean list of pairs. -/
def toPairs : AList → List (String × SVal)
  | .nil => []
  | .cons k v r => (k, v) :: toPairs r

end AList

/-- A single attribute key/value pair list built from plain pairs. -/
def AList.ofPairs : List (String × SVal) → AList
  | [] => .nil
  | (k, v) :: r => .cons k v (AList.ofPairs r)

mutual
/-- Go `slog.Value.String()` for the modelled kinds: strings verbatim,
integers via decimal formatting, group values as `[k=v k=v]` (the `fmt`
rendering of an `[]Attr` slice). -/
def valueString : SVal → String
  | .s x => x
  | .i x => toString x
  | .g al => "[" ++ attrsString al ++ "]"
/-- Space-joined `k=v` rendering of an attribute list, used by
`valueString` on group values. -/
def attrsString : AList → String
  | .nil => ""
  | .cons k v .nil => k ++ "=" ++ valueString v
  | .cons k v r => k ++ "=" ++ valueString v ++ " " ++ attrsString r
end

/-! ## Go log/slog argument conversion

`SlogLogger.log` forwards `keysAndValues ...any` to `slog.Logger.Log`, which
converts the variadic arguments to attributes.  This models the documented
behaviour of `log/slog` (function `argsToAttr`): a string argument consumes
the next argument as its value; a lone trailing string, or a non-string
argument in key position, becomes an attribute with key `!BADKEY` holding
that argument as its value. -/

/-- ASCII lower-casing of one character (Go `strings.ToLower` restricted to
the ASCII level strings the configuration uses). -/
def lowerChar (c : Char) : Char :=
  if 'A' ≤ c ∧ c ≤ 'Z' then Char.ofNat (c.toNat + 32) else c

/-- Go `strings.ToLower` on ASCII strings, character by character. -/
def lowerStr (s : String) : String := ⟨s.data.map lowerChar⟩

/-- Key used by log/slog for malformed key positions. -/
def badKey : String := "!BADKEY"

/-- Model of log/slog `argsToAttrSlice`. -/
def argsToAttrs : List SVal → AList
  | [] => .nil
  | .s k :: [] => .cons badKey (.s k) .nil
  | .s k :: v :: rest => .cons k v (argsToAttrs rest)
  | v :: rest => .cons badKey v (argsToAttrs rest)

/-! ## slog levels (slog/slog.go) -/

/-- slog numeric levels: the package defines TRACE = -8 and FATAL = 10 on top
of slog's DEBUG = -4, INFO = 0, WARN = 4, ERROR = 8. -/
def levelTrace : Int := -8
def levelDebug : Int := -4
def levelInfo : Int := 0
def levelWarn : Int := 4
def levelError : Int := 8
def levelFatal : Int := 10

/-- `parseLevel` from slog/slog.go: maps a config string (lower-cased) to a
level, defaulting to INFO for anything unrecognized. -/
def parseLevel (level : String) : Int :=
  let t := lowerStr level
  if t = "trace" then levelTrace
  else if t = "debug" then levelDebug
  else if t = "info" then levelInfo
  else if t = "warn" ∨ t = "warning" then levelWarn
  else if t = "error" then levelError
  else if t = "fatal" then levelFatal
  else levelInfo

/-- `getLevelString` from slog/slog.go. -/
def getLevelString (level : Int) : String :=
  if level = levelTrace then "TRC"
  else if level = levelDebug then "DBG"
  else if level = levelInfo then "INF"
  else if level = levelWarn then "WRN"
  else if level = levelError then "ERR"
  else if level = levelFatal then "FTL"
  else "???"

/-- `getLevelColor` from slog/slog.go (ANSI colour code per level). -/
def getLevelColor (level : Int) : String :=
  if level = levelTrace then esc ++ "[35m"
  else if level = levelDebug then esc ++ "[33m"
  else if level = levelInfo then esc ++ "[32m"
  else if level = levelWarn then esc ++ "[33m"
  else if level = levelError ∨ level = levelFatal then esc ++ "[31m"
  else esc ++ "[0m"

/-! ## ConsoleHandler (slog/slog.go) -/

/-- State of `ConsoleHandler`: the minimum level held in `opts.Level` (as
produced by `New` via `parseLevel`), the handler-bound attributes, the
accumulated `WithGroup` names, and the configured group field name.  The
output writer is threaded separately as an event trace. -/
structure ConsoleHandler where
  minLevel : Int
  attrs : AList
  groups : List String
  groupFieldName : String
deriving DecidableEq

/-- `NewConsoleHandler`: fresh handler with empty attrs and groups. -/
def newConsoleHandler (minLevel : Int) (groupFieldName : String) : ConsoleHandler :=
  { minLevel := minLevel, attrs := .nil, groups := [], groupFieldName := groupFieldName }

/-- `ConsoleHandler.Enabled`: a record at `level` is handled iff
`level >= minLevel`. -/
def consoleEnabled (h : ConsoleHandler) (level : Int) : Bool :=
  decide (level ≥ h.minLevel)

/-- `ConsoleHandler.WithAttrs`: copies both attribute slices into a fresh
slice, so the receiver's attribute list is never mutated. -/
def consoleWithAttrs (h : ConsoleHandler) (attrs : AList) : ConsoleHandler :=
  { h with attrs := h.attrs.app attrs }

/-- `ConsoleHandler.WithGroup`: appends the group name to a fresh copy of
the accumulated group list; an empty name returns the receiver. -/
def consoleWithGroup (h : ConsoleHandler) (name : String) : ConsoleHandler :=
  if name = "" then h else { h with groups := h.groups ++ [name] }

/-- A slog record as seen by `Handle`: level, message and the call-time
attributes (the record's time is passed separately as its already-formatted
timestamp string, since wall-clock time is external to the model). -/
structure SRecord where
  level : Int
  msg : String
  attrs : AList
deriving DecidableEq

/-- The group-lookup loop of `ConsoleHandler.Handle` over one attribute
list: the value of the first attribute whose key equals `gfn`, rendered with
`Value.String()`, or `""` when no key matches. -/
def findGroupString (gfn : String) (al : AList) : String :=
  match al.find gfn with
  | some v => valueString v
  | none => ""

/-- The group value displayed by `Handle`: the handler-level attributes are
scanned first; the record attributes are scanned when that scan left
`group` as the empty string. -/
def selectGroup (gfn : String) (hattrs rattrs : AList) : String :=
  let g := findGroupString gfn hattrs
  if g = "" then findGroupString gfn rattrs else g

mutual
/-- `appendAttr` from slog/slog.go: renders one attribute.  The key is
prefixed with the dot-joined enclosing group names; a group-valued
attribute instead recurses into its members with its own key appended to
the group path, contributing no `key=value` segment of its own. -/
def appendAttr (k : String) (v : SVal) (groups : List String) : String :=
  let key := if groups.length > 0 then String.intercalate "." groups ++ "." ++ k else k
  match v with
  | .g sub => appendAttrList sub (groups ++ [k])
  | .s x => " " ++ esc ++ "[36m" ++ key ++ esc ++ "[0m=" ++ valueString (.s x)
  | .i x => " " ++ esc ++ "[36m" ++ key ++ esc ++ "[0m=" ++ valueString (.i x)
/-- The loop over a group value's members in `appendAttr`. -/
def appendAttrList (al : AList) (groups : List String) : String :=
  match al with
  | .nil => ""
  | .cons k v rest => appendAttr k v groups ++ appendAttrList rest groups
end

/-- The attribute loop of `Handle` over one attribute list: renders every
attribute whose key differs from the group field name. -/
def renderAttrs (gfn : String) (groups : List String) : AList → String
  | .nil => ""
  | .cons k v rest =>
      (if k = gfn then "" else appendAttr k v groups) ++ renderAttrs gfn groups rest

/-- The timestamp segment `Handle` writes first (dimmed colour). -/
def timeSeg (ts : String) : String :=
  esc ++ "[90m" ++ ts ++ esc ++ "[0m "

/-- The coloured three-letter level segment written after the timestamp. -/
def levelSeg (level : Int) : String :=
  getLevelColor level ++ getLevelString level ++ esc ++ "[0m "

/-- The bracketed group segment; empty when no group value was found. -/
def groupSeg (group : String) : String :=
  if group = "" then "" else esc ++ "[36m[" ++ group ++ "]" ++ esc ++ "[0m "

/-- `ConsoleHandler.Handle`: builds the whole line in one buffer —
timestamp, coloured level code, optional bracketed group, message,
handler-level attributes then record attributes (each skipping the group
field), and the trailing newline.  The buffer's successive writes are
grouped into the segments above; string concatenation is associative, so
the resulting line is byte-identical to the source's. -/
def handleLine (ts : String) (h : ConsoleHandler) (r : SRecord) : String :=
  timeSeg ts ++ levelSeg r.level ++
  groupSeg (selectGroup h.groupFieldName h.attrs r.attrs) ++
  r.msg ++
  renderAttrs h.groupFieldName h.groups h.attrs ++
  renderAttrs h.groupFieldName h.groups r.attrs ++
  "\n"

/-! ## SlogLogger (slog/slog.go), console format -/

/-- Externally observable process events: a write of bytes to the sink, or
process termination with an exit code. -/
inductive Ev : Type where
  | write : String → Ev
  | exitCode : Nat → Ev
deriving DecidableEq

/-- `SlogLogger` in console format: the wrapped `slog.Logger` reduces to its
`ConsoleHandler`, plus the logger's own copy of the group field name. -/
structure SlogLogger where
  handler : ConsoleHandler
  groupFieldName : String
deriving DecidableEq

/-- `New` (slog/slog.go) for console format: defaults the level string to
"info" and the group field name to "_group", then builds a fresh console
handler at the parsed level. -/
def slogNew (level : String) (groupFieldName : String) : SlogLogger :=
  let lvl := if level = "" then "info" else level
  let gfn := if groupFieldName = "" then "_group" else groupFieldName
  { handler := newConsoleHandler (parseLevel lvl) gfn, groupFieldName := gfn }

/-- `slog.Logger.With(args...)` applied to a console handler: the arguments
are converted to attributes and pushed with `WithAttrs`. -/
def slogLoggerWith (l : SlogLogger) (args : List SVal) : SlogLogger :=
  { l with handler := consoleWithAttrs l.handler (argsToAttrs args) }

/-- `SlogLogger.With(key, value)`. -/
def slogWith (l : SlogLogger) (key : String) (value : SVal) : SlogLogger :=
  slogLoggerWith l [.s key, value]

/-- `SlogLogger.WithError(err)`: binds key "error" to the error. -/
def slogWithError (l : SlogLogger) (err : SVal) : SlogLogger :=
  slogLoggerWith l [.s "error", err]

/-- `SlogLogger.WithGroup(group)`: binds the configured group field name to
the group string via `With`. -/
def slogWithGroup (l : SlogLogger) (group : String) : SlogLogger :=
  slogLoggerWith l [.s l.groupFieldName, .s group]

/-- `SlogLogger.log` → `slog.Logger.Log`: if the handler reports the level
enabled, a record is built from the message and the converted variadic
arguments and handled, producing exactly one write of the rendered line;
otherwise nothing is written. -/
def slogLogEvents (ts : String) (l : SlogLogger) (level : Int) (msg : String)
    (kvs : List SVal) : List Ev :=
  if consoleEnabled l.handler level then
    [.write (handleLine ts l.handler { level := level, msg := msg, attrs := argsToAttrs kvs })]
  else []

/-- The record constructed by an emission (message plus converted call-time
attributes), independent of level filtering. -/
def slogRecord (level : Int) (msg : String) (kvs : List SVal) : SRecord :=
  { level := level, msg := msg, attrs := argsToAttrs kvs }

/-- The nine operations of the logging contract. -/
inductive ContractOp : Type where
  | trace | debug | info | warn | error | fatal | withKV | withErr | withGrp
deriving DecidableEq

/-- Events produced by one contract operation on the slog backend:
emissions produce their writes; `Fatal` first performs the emission and then
calls `os.Exit(1)`; the `With*` operations only build new logger values. -/
def slogOpEvents (op : ContractOp) (ts : String) (l : SlogLogger) (msg : String)
    (kvs : List SVal) : List Ev :=
  match op with
  | .trace => slogLogEvents ts l levelTrace msg kvs
  | .debug => slogLogEvents ts l levelDebug msg kvs
  | .info => slogLogEvents ts l levelInfo msg kvs
  | .warn => slogLogEvents ts l levelWarn msg kvs
  | .error => slogLogEvents ts l levelError msg kvs
  | .fatal => slogLogEvents ts l levelFatal msg kvs ++ [.exitCode 1]
  | .withKV => []
  | .withErr => []
  | .withGrp => []

/-! ## NullLogger (null.go) -/

/-- `NullLogger` carries no state. -/
structure NullLogger where
deriving DecidableEq

/-- Every `With*` method on the null logger returns the receiver. -/
def nullWith (n : NullLogger) (_key : String) (_value : SVal) : NullLogger := n

/-- Events produced by a contract operation on the null backend: every
method, `Fatal` included, is a pure no-op. -/
def nullOpEvents (_op : ContractOp) (_msg : String) (_kvs : List SVal) : List Ev := []

/-! ## MockLogger (testing/mock.go)

The mock's `Entries []LogEntry` field is a Go slice: a header (backing-array
pointer, length, capacity) into a shared heap of backing arrays.  `With*`
copies the header (the code comment: share entries slice for assertions),
`log` appends through the receiver's own header.  The heap is modelled
explicitly so that Go `append` semantics — in-place write while capacity
remains, reallocation to a fresh array once it is exhausted — are preserved.
An entry's `Attrs` field is a Go map, a reference value: `log` allocates a
fresh map per entry, and any struct copy of an entry (such as the one
`LastEntry` returns) shares that same map object, so the heap also holds the
map objects; `cells` holds the standalone `LogEntry` structs allocated by
`LastEntry`. -/

/-- One captured log entry as stored in a backing array.  `attrs` is the
reference — an index into `MockHeap.maps` — to the entry's `map[string]any`
object: Go maps are reference values, so struct copies of an entry share the
same map.  `keysAndValues` is a Go slice, likewise reference-like, but no
operation ever writes into an entry's `KeysAndValues`, so it is carried as
its (immutable) contents. -/
structure LogEntry where
  level : String
  message : String
  keysAndValues : List SVal
  attrs : Nat
  group : String
deriving DecidableEq

/-- The field contents `MockLogger.log` computes for a new entry: `attrs` is
the snapshot of the logger's bound-attribute map — the contents copied into
the entry's freshly allocated map.  Go maps are unordered; the model keeps
first-bound order and theorems consult maps only through `AList.find`. -/
structure EntrySnap where
  level : String
  message : String
  keysAndValues : List SVal
  attrs : AList
  group : String
deriving DecidableEq

/-- A default entry value, used only for out-of-range reads that cannot
occur in executions starting from `mockNew`. -/
def dfltEntry : LogEntry :=
  { level := "", message := "", keysAndValues := [], attrs := 0, group := "" }

/-- The heap shared by a family of mock loggers: the backing arrays of the
entry slices (each stored as its initialized prefix), the `map[string]any`
objects referenced by entries, and the standalone entry cells allocated by
`LastEntry`. -/
structure MockHeap where
  arrays : List (List LogEntry)
  maps : List AList
  cells : List LogEntry
deriving DecidableEq

/-- Contents of the map object with id `i`. -/
def MockHeap.mapAt (h : MockHeap) (i : Nat) : AList :=
  h.maps.getD i .nil

/-- The attribute contents an entry's shared map currently holds. -/
def entryAttrs (h : MockHeap) (e : LogEntry) : AList :=
  h.mapAt e.attrs

/-- A `*MockLogger` value: the `Entries` slice header (array id, length,
capacity), the bound-attribute map, and the group string. -/
structure MockLogger where
  arr : Nat
  len : Nat
  cap : Nat
  attrs : AList
  group : String
deriving DecidableEq

/-- Contents of a backing array. -/
def MockHeap.arrayAt (h : MockHeap) (i : Nat) : List LogEntry :=
  h.arrays.getD i []

/-- Write an entry at index `n` of an initialized-prefix list (Go: store
into a backing-array slot that is within capacity). -/
def writeSlot (l : List LogEntry) (n : Nat) (e : LogEntry) : List LogEntry :=
  if n < l.length then l.set n e else l ++ [e]

/-- Go `append` on the `Entries` slice: while length is below capacity the
entry is written into the shared backing array in place; otherwise a fresh
array holding the old visible prefix plus the entry is allocated and the
capacity grows (small-slice doubling). -/
def mockAppend (h : MockHeap) (m : MockLogger) (e : LogEntry) : MockHeap × MockLogger :=
  if m.len < m.cap then
    ({ h with arrays := h.arrays.set m.arr (writeSlot (h.arrayAt m.arr) m.len e) },
     { m with len := m.len + 1 })
  else
    ({ h with arrays := h.arrays ++ [(h.arrayAt m.arr).take m.len ++ [e]] },
     { m with arr := h.arrays.length, len := m.len + 1, cap := max 1 (2 * m.cap) })

/-- `New` (testing/mock.go): a fresh logger with an empty entry slice and an
empty attribute map. -/
def mockNew (h : MockHeap) : MockHeap × MockLogger :=
  ({ h with arrays := h.arrays ++ [[]] },
   { arr := h.arrays.length, len := 0, cap := 0, attrs := .nil, group := "" })

/-- The field contents `MockLogger.log` computes for a new entry (the
attribute snapshot taken at append time, before the fresh map is
allocated). -/
def mockEntryOf (m : MockLogger) (level msg : String) (kvs : List SVal) : EntrySnap :=
  { level := level, message := msg, keysAndValues := kvs, attrs := m.attrs, group := m.group }

/-- `MockLogger.log`: copies the bound attribute map into a freshly
allocated map object, builds the new entry referencing it, and appends the
entry to the receiver's entry slice. -/
def mockLog (h : MockHeap) (m : MockLogger) (level msg : String) (kvs : List SVal) :
    MockHeap × MockLogger :=
  let snap := mockEntryOf m level msg kvs
  mockAppend { h with maps := h.maps ++ [snap.attrs] } m
    { level := snap.level, message := snap.message, keysAndValues := snap.keysAndValues,
      attrs := h.maps.length, group := snap.group }

/-- Key-replacing insertion into the Go attribute map (`newAttrs[key] = value`
after copying the map).  Go maps are unordered; the model keeps first-bound
order and replaces in place, and all theorems consult maps via `AList.find`. -/
def mapInsert (al : AList) (key : String) (value : SVal) : AList :=
  match al with
  | .nil => .cons key value .nil
  | .cons k v rest =>
      if k = key then .cons k value rest else .cons k v (mapInsert rest key value)

/-- `MockLogger.With`: copies the attribute map, adds the binding, and
returns a new logger value sharing the parent's `Entries` slice header.  The
receiver is not modified. -/
def mockWith (m : MockLogger) (key : String) (value : SVal) : MockLogger :=
  { arr := m.arr, len := m.len, cap := m.cap,
    attrs := mapInsert m.attrs key value, group := m.group }

/-- `MockLogger.WithError`: `With("error", err.Error())`. -/
def mockWithError (m : MockLogger) (errMsg : String) : MockLogger :=
  mockWith m "error" (.s errMsg)

/-- `MockLogger.WithGroup`: copies the attribute map and replaces the group
string, sharing the parent's `Entries` slice header. -/
def mockWithGroup (m : MockLogger) (group : String) : MockLogger :=
  { arr := m.arr, len := m.len, cap := m.cap, attrs := m.attrs, group := group }

/-- The entries visible through a logger's slice header. -/
def mockEntries (h : MockHeap) (m : MockLogger) : List LogEntry :=
  (h.arrayAt m.arr).take m.len

/-- `MockLogger.GetEntries`: a copy of the visible entries. -/
def mockGetEntries (h : MockHeap) (m : MockLogger) : List LogEntry :=
  mockEntries h m

/-- `MockLogger.HasEntry`. -/
def mockHasEntry (h : MockHeap) (m : MockLogger) (level message : String) : Bool :=
  (mockEntries h m).any fun e => e.level = level ∧ e.message = message

/-- `MockLogger.CountEntries`. -/
def mockCountEntries (h : MockHeap) (m : MockLogger) (level : String) : Nat :=
  ((mockEntries h m).filter fun e => e.level = level).length

/-- `MockLogger.Reset`: replaces the receiver's entry slice with a fresh
empty one. -/
def mockReset (h : MockHeap) (m : MockLogger) : MockHeap × MockLogger :=
  ({ h with arrays := h.arrays ++ [[]] },
   { m with arr := h.arrays.length, len := 0, cap := 0 })

/-- `MockLogger.LastEntry`: nil when the slice is empty; otherwise the last
visible entry struct is copied into a freshly allocated cell and a pointer
to that cell (its index) is returned.  The copy is shallow — the Go struct
copy duplicates the fields, so the cell carries the same `attrs` map
reference as the stored entry. -/
def mockLastEntry (h : MockHeap) (m : MockLogger) : MockHeap × Option Nat :=
  if m.len = 0 then (h, none)
  else
    ({ h with cells := h.cells ++ [(h.arrayAt m.arr).getD (m.len - 1) dfltEntry] },
     some h.cells.length)

/-- Overwrite the fields of the entry held in a `LastEntry` cell (direct
assignment through the returned pointer; touches only the cell). -/
def setCell (h : MockHeap) (i : Nat) (e : LogEntry) : MockHeap :=
  { h with cells := h.cells.set i e }

/-- Read a `LastEntry` cell. -/
def cellAt (h : MockHeap) (i : Nat) : LogEntry :=
  h.cells.getD i dfltEntry

/-- `entry.Attrs[k] = v` on the map object with id `mid`: the write goes
through the shared map, so every entry referencing that map — a stored entry
and a `LastEntry` copy alike — observes it. -/
def writeMapKey (h : MockHeap) (mid : Nat) (k : String) (v : SVal) : MockHeap :=
  { h with maps := h.maps.set mid (mapInsert (h.mapAt mid) k v) }

/-! ## ZerologLogger (zerolog adapter)

The underlying engine is external; `Logger.With().Interface(k,v).Logger()`
copies the bound-field context into a fresh buffer, so a zerolog logger
reduces to its minimum level and its ordered list of bound fields. -/

/-- Zerolog numeric levels: trace = -1, debug 0, info 1, warn 2, error 3,
fatal 4, panic 5. -/
def zParseLevel (level : String) : Int :=
  let t := lowerStr level
  if t = "trace" then -1
  else if t = "debug" then 0
  else if t = "info" then 1
  else if t = "warn" ∨ t = "warning" then 2
  else if t = "error" then 3
  else if t = "fatal" then 4
  else if t = "panic" then 5
  else 1

/-- `ZerologLogger`: wrapped engine state. -/
structure ZerologLogger where
  minLevel : Int
  fields : AList
deriving DecidableEq

/-- `ZerologLogger.With`: a new logger whose context gains the field; the
receiver's context buffer is copied, never mutated. -/
def zWith (l : ZerologLogger) (key : String) (value : SVal) : ZerologLogger :=
  { l with fields := l.fields.app (.cons key value .nil) }

/-- `ZerologLogger.WithError`. -/
def zWithError (l : ZerologLogger) (errMsg : String) : ZerologLogger :=
  { l with fields := l.fields.app (.cons "error" (.s errMsg) .nil) }

/-- `ZerologLogger.WithGroup`: binds the flat field "group". -/
def zWithGroup (l : ZerologLogger) (group : String) : ZerologLogger :=
  { l with fields := l.fields.app (.cons "group" (.s group) .nil) }

/-- The key/value loop of `ZerologLogger.log`: pairs are consumed two at a
time; an unpaired trailing argument is skipped, and a pair whose key is not
a string is skipped whole (`continue` advances past both elements). -/
def zPairs : List SVal → AList
  | [] => .nil
  | [_] => .nil
  | .s k :: v :: rest => .cons k v (zPairs rest)
  | _ :: _ :: rest => zPairs rest

/-- An emitted zerolog record: message plus bound-context fields plus the
call-time fields accepted by the key/value loop. -/
structure ZRecord where
  msg : String
  fields : AList
deriving DecidableEq

/-- `ZerologLogger.log` at a given event level: `event.Msg(msg)` always
fires, so whenever the level passes the logger's filter exactly one record
with the message is emitted, carrying the accepted pairs. -/
def zLog (l : ZerologLogger) (level : Int) (msg : String) (kvs : List SVal) :
    Option ZRecord :=
  if decide (level ≥ l.minLevel) then
    some { msg := msg, fields := l.fields.app (zPairs kvs) }
  else none

/-- `ZerologLogger.Info`. -/
def zInfo (l : ZerologLogger) (msg : String) (kvs : List SVal) : Option ZRecord :=
  zLog l 1 msg kvs

/-- Whether a Go `any` value is a string (the `.(string)` type assertion in
the zerolog key/value loop). -/
def SVal.isStr : SVal → Bool
  | .s _ => true
  | _ => false

/-! ## Definitions written from the spec's words, for refinement claims -/

/-- The dot-joined key of a leaf under a path of enclosing group names
(`strings.Join(groups, ".") + "." + key` when the path is nonempty). -/
def dotKey (groups : List String) (k : String) : String :=
  if groups.length > 0 then String.intercalate "." groups ++ "." ++ k else k

/-- Concatenation of a list of strings, left to right. -/
def joinAll : List String → String
  | [] => ""
  | a :: r => a ++ joinAll r

mutual
/-- Written from the spec's words (C7): the flattened rendering of one
attribute — a group value contributes exactly the renderings of its nested
leaves, each leaf printed once with its key prefixed by the dot-joined path
of enclosing group names; a non-group value is a single leaf. -/
def leafRenders (groups : List String) (k : String) : SVal → List String
  | .g sub => leafRendersList (groups ++ [k]) sub
  | .s x => [" " ++ esc ++ "[36m" ++ dotKey groups k ++ esc ++ "[0m=" ++ valueString (.s x)]
  | .i x => [" " ++ esc ++ "[36m" ++ dotKey groups k ++ esc ++ "[0m=" ++ valueString (.i x)]
/-- Leaf renderings of every member of a group, in order. -/
def leafRendersList (groups : List String) : AList → List String
  | .nil => []
  | .cons k v rest => leafRenders groups k v ++ leafRendersList groups rest
end

/-- Written from the claim's words (C6): the group value is located by
searching the handler-level attributes first, and the record attributes are
consulted only when NO match (no attribute with the group field name as its
key) exists among the handler-level attributes; the first match wins. -/
def claimSelectGroup (gfn : String) (hattrs rattrs : AList) : String :=
  match hattrs.find gfn with
  | some v => valueString v
  | none => findGroupString gfn rattrs

/-! # Helper lemmas -/

namespace AList

theorem app_nil (a : AList) : a.app .nil = a := by
  match a with
  | .nil => rfl
  | .cons k v r => simp [app, app_nil r]

theorem app_assoc (a b c : AList) : (a.app b).app c = a.app (b.app c) := by
  match a with
  | .nil => rfl
  | .cons k v r => simp [app, app_assoc r]

theorem find_app (a b : AList) (k : String) :
    (a.app b).find k =
      match a.find k with
      | some v => some v
      | none => b.find k := by
  match a with
  | .nil => simp [app, find]
  | .cons k' v r =>
      by_cases h : k' = k
      · simp [app, find, h]
      · simp [app, find, h, find_app r]

end AList

theorem find_mapInsert_self (al : AList) (k : String) (v : SVal) :
    (mapInsert al k v).find k = some v := by
  match al with
  | .nil => simp [mapInsert, AList.find]
  | .cons k' v' r =>
      by_cases h : k' = k
      · simp [mapInsert, AList.find, h]
      · simp [mapInsert, AList.find, h, find_mapInsert_self r]

theorem find_mapInsert_ne (al : AList) (k k' : String) (v : SVal) (h : k ≠ k') :
    (mapInsert al k v).find k' = al.find k' := by
  match al with
  | .nil => simp [mapInsert, AList.find, h]
  | .cons k'' v'' r =>
      by_cases h2 : k'' = k
      · subst h2
        simp [mapInsert, AList.find, h]
      · simp [mapInsert, AList.find, h2, find_mapInsert_ne r k k' v h]

theorem renderAttrs_app (gfn : String) (gs : List String) (a b : AList) :
    renderAttrs gfn gs (a.app b) = renderAttrs gfn gs a ++ renderAttrs gfn gs b := by
  match a with
  | .nil => simp [AList.app, renderAttrs]
  | .cons k v r => simp [AList.app, renderAttrs, renderAttrs_app gfn gs r, String.append_assoc]

theorem parseLevel_le_fatal (s : String) : parseLevel s ≤ levelFatal := by
  simp only [parseLevel]
  split_ifs <;> simp [levelTrace, levelDebug, levelInfo, levelWarn, levelError, levelFatal]

theorem parseLevel_gt_error_iff (s : String) :
    levelError < parseLevel s ↔ lowerStr s = "fatal" := by
  simp only [parseLevel]
  split_ifs with h1 h2 h3 h4 h5 h6 <;>
    (try (rcases h4 with h4 | h4)) <;>
    simp_all [levelTrace, levelDebug, levelInfo, levelWarn, levelError, levelFatal]

theorem slogLogEvents_nil_iff (ts : String) (l : SlogLogger) (L : Int) (msg : String)
    (kvs : List SVal) :
    slogLogEvents ts l L msg kvs = [] ↔ L < l.handler.minLevel := by
  unfold slogLogEvents consoleEnabled
  split_ifs with h <;> simp_all

/-! # Claim theorems -/

/-- C3 (code_bug evaluation): the mock's `With` copies the `Entries` slice
header, so an entry logged through the parent after deriving a child is
invisible to every query through the child — the entry sequence is not
observably shared, although the code's comment says it is shared for
assertions.  Failing input: a fresh mock, one derived child, one parent
emission. -/
theorem mock_child_misses_parent_entry :
    (let h0 : MockHeap := { arrays := [], maps := [], cells := [] }
     let p := mockNew h0
     let child := mockWith p.2 "a" (.i 1)
     let after := mockLog p.1 p.2 "info" "hello" []
     mockHasEntry after.1 child "info" "hello" = false
       ∧ mockHasEntry after.1 after.2 "info" "hello" = true
       ∧ mockGetEntries after.1 child = []
       ∧ mockCountEntries after.1 child "info" = 0) := by
  decide

/-- C8: on the slog backend `Fatal` first performs the emission — the write
of the rendered record — and only afterwards terminates the process with
exit status 1; an exit event occurs in a contract operation's trace exactly
when the operation is `Fatal` (with code 1); and the null backend's `Fatal`
produces no write and no exit. -/
theorem fatal_order_and_exclusivity :
    (∀ level gfn ts msg kvs,
        slogOpEvents .fatal ts (slogNew level gfn) msg kvs =
          [Ev.write (handleLine ts (slogNew level gfn).handler (slogRecord levelFatal msg kvs)),
           Ev.exitCode 1])
    ∧ (∀ op ts l msg kvs c,
        Ev.exitCode c ∈ slogOpEvents op ts l msg kvs ↔ op = .fatal ∧ c = 1)
    ∧ (∀ op msg kvs, nullOpEvents op msg kvs = []) := by
  refine ⟨?_, ?_, ?_⟩
  · intro level gfn ts msg kvs
    have hen : consoleEnabled (slogNew level gfn).handler levelFatal = true := by
      simp [consoleEnabled, slogNew, newConsoleHandler]
      exact parseLevel_le_fatal _
    simp [slogOpEvents, slogLogEvents, hen, slogRecord]
  · intro op ts l msg kvs c
    cases op <;>
      simp [slogOpEvents, slogLogEvents]
  · intro op msg kvs
    rfl

/-- C2 counterexample: with the configuration level string "fatal" (accepted
by `parseLevel` though undocumented), an Error emission writes nothing — so
"an Error emission is never suppressed regardless of configuration" is
false. -/
theorem error_suppressed_by_fatal_config :
    slogLogEvents "02 Jan 06 15:04 MST" (slogNew "fatal" "") levelError "boom" [] = [] := by
  rw [slogLogEvents_nil_iff]
  decide

/-- C2 (amended): for the console slog backend an emission at level L writes
output iff L ≥ M, where M is parsed from the config level string with "info"
as the default for an absent or unrecognized string; a Trace emission is
suppressed under the default configuration; and an Error emission is
suppressed exactly when the configured level string lower-cases to "fatal"
(for every documented level string — trace, debug, info, warn, error — and
every unrecognized one, Error is never suppressed). -/
theorem level_gate_amended :
    (∀ level gfn ts L msg kvs,
        (slogLogEvents ts (slogNew level gfn) L msg kvs ≠ []) ↔
          parseLevel (if level = "" then "info" else level) ≤ L)
    ∧ (∀ gfn ts msg kvs, slogLogEvents ts (slogNew "" gfn) levelTrace msg kvs = [])
    ∧ (∀ level gfn ts msg kvs,
        (slogLogEvents ts (slogNew level gfn) levelError msg kvs = []) ↔
          lowerStr level = "fatal") := by
  have hmin : ∀ level gfn, (slogNew level gfn).handler.minLevel =
      parseLevel (if level = "" then "info" else level) := by
    intro level gfn
    rfl
  refine ⟨?_, ?_, ?_⟩
  · intro level gfn ts L msg kvs
    rw [ne_eq, slogLogEvents_nil_iff, hmin]
    omega
  · intro gfn ts msg kvs
    rw [slogLogEvents_nil_iff, hmin]
    decide
  · intro level gfn ts msg kvs
    rw [slogLogEvents_nil_iff, hmin]
    by_cases h0 : level = ""
    · subst h0
      simp only [if_pos rfl]
      constructor
      · intro h
        exact absurd h (by decide)
      · intro h
        exact absurd h (by decide)
    · rw [if_neg h0]
      rw [show (levelError < parseLevel level ↔ lowerStr level = "fatal") from
        parseLevel_gt_error_iff level]

theorem getD_append_length {A : Type} (l : List A) (e d : A) :
    (l ++ [e]).getD l.length d = e := by
  induction l with
  | nil => rfl
  | cons a r ih => simp [ih]

theorem getD_take {A : Type} (l : List A) (n i : Nat) (d : A) (h : i < n) :
    (l.take n).getD i d = l.getD i d := by
  induction l generalizing n i with
  | nil => simp
  | cons a r ih =>
      cases n with
      | zero => omega
      | succ n2 =>
          cases i with
          | zero => rfl
          | succ i2 => simpa using ih n2 i2 (by omega)

/-- C4 counterexample: on the slog backend `Info("x", "onlykey")` does not
emit a record with zero attributes — log/slog turns the unpaired trailing
key into the attribute `!BADKEY=onlykey`, and the record (still emitted,
with message "x") carries it. -/
theorem slog_onlykey_badkey_attr :
    (slogRecord levelInfo "x" [.s "onlykey"]).attrs = .cons badKey (.s "onlykey") .nil
    ∧ (slogRecord levelInfo "x" [.s "onlykey"]).attrs ≠ .nil
    ∧ slogLogEvents "02 Jan 06 15:04 MST" (slogNew "" "") levelInfo "x" [.s "onlykey"]
        = [.write (handleLine "02 Jan 06 15:04 MST" (slogNew "" "").handler
            (slogRecord levelInfo "x" [.s "onlykey"]))] := by
  have hen : consoleEnabled (slogNew "" "").handler levelInfo = true := by decide
  exact ⟨rfl, by decide, by simp [slogLogEvents, hen, slogRecord]⟩

/-- C4 (amended): malformed variadic key/value input is tolerated on both
backends and the record for the message is still emitted.  The zerolog
backend silently skips an unpaired trailing key and skips any pair whose
key is not a string, so `Info("x", "onlykey")` emits message "x" with zero
call-time fields.  The slog backend also still emits the record, but does
not skip the malformed input: the unpaired trailing key becomes the single
attribute `!BADKEY=onlykey`. -/
theorem malformed_kvs_amended :
    (∀ (args : List SVal) (x : SVal), args.length % 2 = 0 →
        zPairs (args ++ [x]) = zPairs args)
    ∧ (∀ (v w : SVal) (rest : List SVal), v.isStr = false →
        zPairs (v :: w :: rest) = zPairs rest)
    ∧ (∀ (l : ZerologLogger) (level : Int) (msg : String) (kvs : List SVal),
        l.minLevel ≤ level →
        zLog l level msg kvs = some { msg := msg, fields := l.fields.app (zPairs kvs) })
    ∧ (∀ (l : ZerologLogger) (msg k : String), l.minLevel ≤ 1 →
        zInfo l msg [.s k] = some { msg := msg, fields := l.fields })
    ∧ (∀ k : String, argsToAttrs [.s k] = .cons badKey (.s k) .nil)
    ∧ (∀ ts gfn msg k,
        slogLogEvents ts (slogNew "" gfn) levelInfo msg [.s k]
          = [.write (handleLine ts (slogNew "" gfn).handler
              (slogRecord levelInfo msg [.s k]))]) := by
  have hz : ∀ (args : List SVal) (x : SVal), args.length % 2 = 0 →
      zPairs (args ++ [x]) = zPairs args := by
    intro args x
    induction args using zPairs.induct with
    | case1 => intro _; simp [zPairs]
    | case2 v => intro hlen; simp at hlen
    | case3 k v rest ih =>
        intro hlen
        simp only [List.length_cons] at hlen
        simp only [List.cons_append, zPairs]
        rw [show rest.append [x] = rest ++ [x] from rfl, ih (by omega)]
    | case4 v w rest hv ih =>
        intro hlen
        simp only [List.length_cons] at hlen
        have hz2 : zPairs (v :: w :: (rest ++ [x])) = zPairs (rest ++ [x]) := by
          cases v with
          | s a => exact (hv a rfl).elim
          | i a => rfl
          | g a => rfl
        have hz3 : zPairs (v :: w :: rest) = zPairs rest := by
          cases v with
          | s a => exact (hv a rfl).elim
          | i a => rfl
          | g a => rfl
        simp only [List.cons_append, hz2, hz3]
        exact ih (by omega)
  refine ⟨hz, ?_, ?_, ?_, ?_, ?_⟩
  · intro v w rest hv
    cases v with
    | s a => simp [SVal.isStr] at hv
    | i a => rfl
    | g a => rfl
  · intro l level msg kvs h
    simp [zLog, ge_iff_le, h]
  · intro l msg k h
    simp [zInfo, zLog, ge_iff_le, h, zPairs, AList.app_nil]
  · intro k
    rfl
  · intro ts gfn msg k
    have hen : consoleEnabled (slogNew "" gfn).handler levelInfo = true := by
      simp [consoleEnabled, slogNew, newConsoleHandler]
      decide
    simp [slogLogEvents, hen, slogRecord]

/-- Witness for C4's amended theorem at concrete inputs. -/
theorem malformed_kvs_amended_witness :
    zPairs ([] ++ [SVal.s "onlykey"]) = zPairs []
    ∧ zPairs (SVal.i 7 :: SVal.s "v" :: []) = zPairs ([] : List SVal)
    ∧ zLog { minLevel := 1, fields := .nil } 1 "x" []
        = some { msg := "x", fields := AList.nil.app (zPairs []) }
    ∧ zInfo { minLevel := 1, fields := .nil } "x" [.s "onlykey"]
        = some { msg := "x", fields := .nil } := by
  exact ⟨malformed_kvs_amended.1 [] (.s "onlykey") (by decide),
         malformed_kvs_amended.2.1 (.i 7) (.s "v") [] (by decide),
         malformed_kvs_amended.2.2.1 _ 1 "x" [] (by decide),
         malformed_kvs_amended.2.2.2.1 _ "x" "onlykey" (by decide)⟩

theorem getD_set_self {A : Type} (l : List A) (i : Nat) (x d : A) (h : i < l.length) :
    (l.set i x).getD i d = x := by
  induction l generalizing i with
  | nil => simp at h
  | cons a r ih =>
      cases i with
      | zero => rfl
      | succ j => simpa using ih j (by simpa using h)

/-- C10 counterexample: the struct copy `LastEntry` returns is shallow — it
shares the `Attrs` map with the stored entry, so writing a key into the
returned entry's map DOES alter the captured sequence: after the write, the
captured entry observed through `GetEntries` carries the new key. -/
theorem last_entry_mutation_leaks :
    (let h0 : MockHeap := { arrays := [], maps := [], cells := [] }
     let p := mockNew h0
     let q := mockLog p.1 p.2 "info" "x" []
     let r := mockLastEntry q.1 q.2
     let cell := cellAt r.1 ((r.2).getD 0)
     let mutated := writeMapKey r.1 cell.attrs "boom" (.s "y")
     cell.attrs = ((mockGetEntries r.1 q.2).getD 0 dfltEntry).attrs
       ∧ entryAttrs r.1 ((mockGetEntries r.1 q.2).getD 0 dfltEntry) = AList.nil
       ∧ entryAttrs mutated ((mockGetEntries mutated q.2).getD 0 dfltEntry)
           = .cons "boom" (.s "y") .nil
       ∧ entryAttrs mutated ((mockGetEntries mutated q.2).getD 0 dfltEntry)
           ≠ entryAttrs r.1 ((mockGetEntries r.1 q.2).getD 0 dfltEntry)) := by
  decide

/-- C10 (amended): `LastEntry` returns nil exactly when the entry slice is
empty — in particular on a fresh mock and immediately after `Reset` — and
otherwise returns a pointer to a freshly allocated SHALLOW copy of the most
recently appended entry: overwriting the returned entry's own fields (or the
whole struct) leaves the captured sequence unchanged, but the copy shares
the stored entry's `Attrs` map, so a write into that map through the
returned entry is observed by every entry referencing the map — the captured
entry included. -/
theorem last_entry_shallow_copy :
    (∀ h m, (mockLastEntry h m).2 = none ↔ m.len = 0)
    ∧ (∀ h, (mockLastEntry (mockNew h).1 (mockNew h).2).2 = none)
    ∧ (∀ h m, (mockLastEntry (mockReset h m).1 (mockReset h m).2).2 = none)
    ∧ (∀ h m, m.len ≠ 0 →
        (mockLastEntry h m).2 = some h.cells.length
        ∧ cellAt (mockLastEntry h m).1 h.cells.length
            = (mockEntries h m).getD (m.len - 1) dfltEntry)
    ∧ (∀ h i e m, mockGetEntries (setCell h i e) m = mockGetEntries h m)
    ∧ (∀ h i e e2, entryAttrs (setCell h i e) e2 = entryAttrs h e2)
    ∧ (∀ h mid k v (e : LogEntry), mid < h.maps.length → e.attrs = mid →
        entryAttrs (writeMapKey h mid k v) e = mapInsert (entryAttrs h e) k v) := by
  refine ⟨?_, ?_, ?_, ?_, ?_, ?_, ?_⟩
  · intro h m
    unfold mockLastEntry
    split_ifs with hl <;> simp [hl]
  · intro h
    simp [mockNew, mockLastEntry]
  · intro h m
    simp [mockReset, mockLastEntry]
  · intro h m hne
    unfold mockLastEntry
    rw [if_neg hne]
    refine ⟨rfl, ?_⟩
    have h1 : cellAt
        { h with cells := h.cells ++ [(h.arrayAt m.arr).getD (m.len - 1) dfltEntry] }
        h.cells.length = (h.arrayAt m.arr).getD (m.len - 1) dfltEntry := by
      unfold cellAt
      exact getD_append_length _ _ _
    rw [h1, mockEntries, getD_take _ _ _ _ (by omega)]
  · intro h i e m
    rfl
  · intro h i e e2
    rfl
  · intro h mid k v e hmid he
    unfold writeMapKey entryAttrs MockHeap.mapAt
    rw [he]
    exact getD_set_self h.maps mid _ _ hmid

/-- Witness for C10's amended theorem at a concrete scenario: one emission
on a fresh mock, then a map write through the returned entry. -/
theorem last_entry_shallow_copy_witness :
    (let h0 : MockHeap := { arrays := [], maps := [], cells := [] }
     let p := mockNew h0
     let q := mockLog p.1 p.2 "info" "x" []
     (mockLastEntry q.1 q.2).2 = some 0
       ∧ cellAt (mockLastEntry q.1 q.2).1 0
           = (mockEntries q.1 q.2).getD (q.2.len - 1) dfltEntry)
    ∧ (let h1 : MockHeap := { arrays := [], maps := [AList.nil], cells := [] }
       entryAttrs (writeMapKey h1 0 "boom" (.s "y")) dfltEntry
         = mapInsert (entryAttrs h1 dfltEntry) "boom" (.s "y")) := by
  exact ⟨last_entry_shallow_copy.2.2.2.1 _ _ (by decide),
         last_entry_shallow_copy.2.2.2.2.2.2 _ 0 "boom" (.s "y") dfltEntry
           (by decide) rfl⟩


theorem strAppend_empty (s : String) : s ++ "" = s := by
  cases s with
  | mk d => show String.mk (d ++ []) = String.mk d
            rw [List.append_nil]

theorem joinAll_append (a b : List String) :
    joinAll (a ++ b) = joinAll a ++ joinAll b := by
  induction a with
  | nil => show joinAll b = "" ++ joinAll b
           rfl
  | cons x r ih => simp [joinAll, ih, String.append_assoc]

mutual
theorem appendAttr_eq_leaves (k : String) (v : SVal) (groups : List String) :
    appendAttr k v groups = joinAll (leafRenders groups k v) := by
  match v with
  | .s x => simp [appendAttr, leafRenders, joinAll, dotKey, strAppend_empty]
  | .i x => simp [appendAttr, leafRenders, joinAll, dotKey, strAppend_empty]
  | .g sub =>
      show appendAttrList sub (groups ++ [k]) = joinAll (leafRendersList (groups ++ [k]) sub)
      exact appendAttrList_eq_leaves sub (groups ++ [k])
theorem appendAttrList_eq_leaves (al : AList) (groups : List String) :
    appendAttrList al groups = joinAll (leafRendersList groups al) := by
  match al with
  | .nil => rfl
  | .cons k v rest =>
      simp [appendAttrList, leafRendersList, joinAll_append,
        appendAttr_eq_leaves k v groups, appendAttrList_eq_leaves rest groups]
end

/-- C7: the console renderer flattens every group-valued attribute — its
rendered output is exactly the concatenation of its nested leaves, each leaf
printed once with its key prefixed by the dot-joined path of enclosing group
names, recursively; a group-valued attribute contributes no `key=value`
segment of its own, and a value two groups deep renders as
`outer.inner.key=value`. -/
theorem nested_group_flattening :
    (∀ (groups : List String) (k : String) (v : SVal),
        appendAttr k v groups = joinAll (leafRenders groups k v))
    ∧ (∀ (groups : List String) (k : String) (sub : AList),
        appendAttr k (.g sub) groups = appendAttrList sub (groups ++ [k]))
    ∧ appendAttr "outer"
        (.g (.cons "inner" (.g (.cons "key" (.s "value") .nil)) .nil)) []
        = " " ++ esc ++ "[36m" ++ "outer.inner.key" ++ esc ++ "[0m=" ++ "value" := by
  exact ⟨fun groups k v => appendAttr_eq_leaves k v groups,
         fun groups k sub => rfl,
         by decide⟩

/-- C1: on every backend, `With` builds a new logger value and leaves the
receiver's bound attribute set — and hence the attribute snapshot of its
subsequent emissions — unchanged; two siblings derived from the same parent
via independent bindings of fresh keys "a" and "b" each carry their own
added attribute and not the sibling's. -/
theorem with_derivation_isolation :
    (∀ (n : NullLogger) (k : String) (v : SVal), nullWith n k v = n)
    ∧ (∀ (m : MockLogger) (lvl msg : String) (kvs : List SVal),
        (mockEntryOf m lvl msg kvs).attrs = m.attrs)
    ∧ (∀ (m : MockLogger) (a b : String) (va vb : SVal) (lvl msg : String)
          (kvs : List SVal),
        m.attrs.find a = none → m.attrs.find b = none → a ≠ b →
          ((mockEntryOf (mockWith m a va) lvl msg kvs).attrs.find a = some va
            ∧ (mockEntryOf (mockWith m a va) lvl msg kvs).attrs.find b = none
            ∧ (mockEntryOf (mockWith m b vb) lvl msg kvs).attrs.find b = some vb
            ∧ (mockEntryOf (mockWith m b vb) lvl msg kvs).attrs.find a = none))
    ∧ (∀ (l : SlogLogger) (a : String) (va : SVal),
        (slogWith l a va).handler.attrs = l.handler.attrs.app (.cons a va .nil)
          ∧ (slogWith l a va).handler.minLevel = l.handler.minLevel
          ∧ (slogWith l a va).handler.groupFieldName = l.handler.groupFieldName)
    ∧ (∀ (l : SlogLogger) (a b : String) (va vb : SVal),
        l.handler.attrs.find a = none → l.handler.attrs.find b = none → a ≠ b →
          ((slogWith l a va).handler.attrs.find a = some va
            ∧ (slogWith l a va).handler.attrs.find b = none
            ∧ (slogWith l b vb).handler.attrs.find b = some vb
            ∧ (slogWith l b vb).handler.attrs.find a = none))
    ∧ (∀ (z : ZerologLogger) (a b : String) (va vb : SVal),
        z.fields.find a = none → z.fields.find b = none → a ≠ b →
          ((zWith z a va).fields.find a = some va
            ∧ (zWith z a va).fields.find b = none
            ∧ (zWith z b vb).fields.find b = some vb
            ∧ (zWith z b vb).fields.find a = none)) := by
  have happ : ∀ (al : AList) (a : String) (va : SVal),
      (al.app (.cons a va .nil)).find a = some va ∨ al.find a ≠ none := by
    intro al a va
    rw [AList.find_app]
    cases hf : al.find a with
    | none => left; simp [AList.find]
    | some v => right; simp
  have hiso : ∀ (al : AList) (a b : String) (va : SVal),
      al.find a = none → al.find b = none → a ≠ b →
        ((al.app (.cons a va .nil)).find a = some va
          ∧ (al.app (.cons a va .nil)).find b = none) := by
    intro al a b va ha hb hab
    constructor
    · rw [AList.find_app, ha]
      simp [AList.find]
    · rw [AList.find_app, hb]
      simp [AList.find, hab]
  refine ⟨fun n k v => rfl, fun m lvl msg kvs => rfl, ?_, ?_, ?_, ?_⟩
  · intro m a b va vb lvl msg kvs ha hb hab
    refine ⟨?_, ?_, ?_, ?_⟩
    · show (mapInsert m.attrs a va).find a = some va
      exact find_mapInsert_self m.attrs a va
    · show (mapInsert m.attrs a va).find b = none
      rw [find_mapInsert_ne m.attrs a b va hab]
      exact hb
    · show (mapInsert m.attrs b vb).find b = some vb
      exact find_mapInsert_self m.attrs b vb
    · show (mapInsert m.attrs b vb).find a = none
      rw [find_mapInsert_ne m.attrs b a vb (Ne.symm hab)]
      exact ha
  · intro l a va
    exact ⟨rfl, rfl, rfl⟩
  · intro l a b va vb ha hb hab
    have h1 := hiso l.handler.attrs a b va ha hb hab
    have h2 := hiso l.handler.attrs b a vb hb ha (Ne.symm hab)
    exact ⟨h1.1, h1.2, h2.1, h2.2⟩
  · intro z a b va vb ha hb hab
    have h1 := hiso z.fields a b va ha hb hab
    have h2 := hiso z.fields b a vb hb ha (Ne.symm hab)
    exact ⟨h1.1, h1.2, h2.1, h2.2⟩

/-- Witness for C1 at concrete sibling derivations on each stateful
backend. -/
theorem with_derivation_isolation_witness :
    (let m : MockLogger := { arr := 0, len := 0, cap := 0, attrs := .nil, group := "" }
     (mockEntryOf (mockWith m "a" (.i 1)) "info" "x" []).attrs.find "a" = some (.i 1)
       ∧ (mockEntryOf (mockWith m "a" (.i 1)) "info" "x" []).attrs.find "b" = none
       ∧ (mockEntryOf (mockWith m "b" (.i 2)) "info" "x" []).attrs.find "b" = some (.i 2)
       ∧ (mockEntryOf (mockWith m "b" (.i 2)) "info" "x" []).attrs.find "a" = none)
    ∧ ((slogWith (slogNew "" "") "a" (.i 1)).handler.attrs.find "a" = some (.i 1)
       ∧ (slogWith (slogNew "" "") "a" (.i 1)).handler.attrs.find "b" = none
       ∧ (slogWith (slogNew "" "") "b" (.i 2)).handler.attrs.find "b" = some (.i 2)
       ∧ (slogWith (slogNew "" "") "b" (.i 2)).handler.attrs.find "a" = none)
    ∧ (let z : ZerologLogger := { minLevel := 1, fields := .nil }
       (zWith z "a" (.i 1)).fields.find "a" = some (.i 1)
         ∧ (zWith z "a" (.i 1)).fields.find "b" = none
         ∧ (zWith z "b" (.i 2)).fields.find "b" = some (.i 2)
         ∧ (zWith z "b" (.i 2)).fields.find "a" = none) := by
  exact ⟨with_derivation_isolation.2.2.1 _ "a" "b" _ _ "info" "x" [] rfl rfl (by decide),
         with_derivation_isolation.2.2.2.2.1 _ "a" "b" _ _ rfl rfl (by decide),
         with_derivation_isolation.2.2.2.2.2 _ "a" "b" _ _ rfl rfl (by decide)⟩


theorem selectGroup_app_gfn (gfn : String) (A ra : AList) (v w : SVal) :
    selectGroup gfn ((A.app (.cons gfn v .nil)).app (.cons gfn w .nil)) ra
      = selectGroup gfn (A.app (.cons gfn v .nil)) ra := by
  unfold selectGroup findGroupString
  have h1 : (A.app (.cons gfn v .nil)).find gfn =
      match A.find gfn with
      | some u => some u
      | none => some v := by
    rw [AList.find_app]
    cases A.find gfn <;> simp [AList.find]
  have h2 : ((A.app (.cons gfn v .nil)).app (.cons gfn w .nil)).find gfn =
      (A.app (.cons gfn v .nil)).find gfn := by
    rw [AList.find_app, h1]
    cases A.find gfn <;> simp
  rw [h2]

theorem renderAttrs_gfn_cancel (gfn : String) (gs : List String) (X : AList) (w : SVal) :
    renderAttrs gfn gs (X.app (.cons gfn w .nil)) = renderAttrs gfn gs X := by
  rw [renderAttrs_app]
  simp [renderAttrs, strAppend_empty]

/-- C6 counterexample: when the handler-level attributes DO contain a match
for the group field name but its value renders as the empty string, the
renderer still consults the call-time record attributes and displays the
record's group — so "only if no match exists there" is false as stated.
Reachable input: `New(console).WithGroup("")` then a call-time
`"_group"` pair. -/
theorem group_lookup_empty_value_fallthrough :
    (let ha : AList := .cons "_group" (.s "") .nil
     let ra : AList := .cons "_group" (.s "rec") .nil
     ha.find "_group" = some (.s "")
       ∧ selectGroup "_group" ha ra = "rec"
       ∧ claimSelectGroup "_group" ha ra = ""
       ∧ selectGroup "_group" ha ra ≠ claimSelectGroup "_group" ha ra
       ∧ handleLine "ts"
            { minLevel := 0, attrs := ha, groups := [], groupFieldName := "_group" }
            { level := 0, msg := "m", attrs := ra }
          = esc ++ "[90m" ++ "ts" ++ esc ++ "[0m " ++ esc ++ "[32m" ++ "INF"
            ++ esc ++ "[0m " ++ esc ++ "[36m[" ++ "rec" ++ "]" ++ esc ++ "[0m "
            ++ "m" ++ "\n") := by
  decide

/-- C6 (amended): the renderer searches the handler-level attributes first
for the group field name, and the first match wins when its rendered value
is nonempty; when no handler-level match exists — or the first match's value
renders as the empty string — the call-time record attributes are searched,
first match winning there; at most one bracketed group is displayed per
line, rendered immediately after the level code and before the message. -/
theorem group_lookup_amended :
    (∀ (gfn : String) (ha ra : AList), ha.find gfn = none →
        selectGroup gfn ha ra = findGroupString gfn ra)
    ∧ (∀ (gfn : String) (ha ra : AList) (v : SVal),
        ha.find gfn = some v → valueString v ≠ "" →
        selectGroup gfn ha ra = valueString v)
    ∧ (∀ (gfn : String) (ha ra : AList) (v : SVal),
        ha.find gfn = some v → valueString v = "" →
        selectGroup gfn ha ra = findGroupString gfn ra)
    ∧ (∀ (gfn : String) (v : SVal) (rest : AList),
        (AList.cons gfn v rest).find gfn = some v)
    ∧ (∀ (ts : String) (h : ConsoleHandler) (r : SRecord),
        handleLine ts h r =
          timeSeg ts ++ levelSeg r.level
            ++ groupSeg (selectGroup h.groupFieldName h.attrs r.attrs)
            ++ r.msg
            ++ renderAttrs h.groupFieldName h.groups h.attrs
            ++ renderAttrs h.groupFieldName h.groups r.attrs
            ++ "\n") := by
  refine ⟨?_, ?_, ?_, ?_, ?_⟩
  · intro gfn ha ra h
    simp [selectGroup, findGroupString, h]
  · intro gfn ha ra v h hv
    simp [selectGroup, findGroupString, h, hv]
  · intro gfn ha ra v h hv
    simp [selectGroup, findGroupString, h, hv]
  · intro gfn v rest
    simp [AList.find]
  · intro ts h r
    rfl

/-- Witness for C6's amended theorem at concrete attribute lists. -/
theorem group_lookup_amended_witness :
    selectGroup "_group" AList.nil (.cons "_group" (.s "rec") .nil)
        = findGroupString "_group" (.cons "_group" (.s "rec") .nil)
    ∧ selectGroup "_group" (.cons "_group" (.s "svc") .nil) AList.nil
        = valueString (.s "svc")
    ∧ selectGroup "_group" (.cons "_group" (.s "") .nil) (.cons "_group" (.s "rec") .nil)
        = findGroupString "_group" (.cons "_group" (.s "rec") .nil) := by
  exact ⟨group_lookup_amended.1 "_group" _ _ rfl,
         group_lookup_amended.2.1 "_group" _ _ (.s "svc") rfl (by decide),
         group_lookup_amended.2.2.1 "_group" _ _ (.s "") rfl rfl⟩

/-- C9: every `WithGroup` call on the slog console backend binds one more
handler-level attribute under the same group field name; a second
`WithGroup` changes no rendered output at all — the bracketed group comes
from the earliest binding (the first matching handler-level attribute), and
every attribute keyed by the group field name, later group bindings
included, is omitted from the key=value list. -/
theorem repeated_withgroup_rendering :
    (∀ (l : SlogLogger) (g1 g2 : String),
        (slogWithGroup (slogWithGroup l g1) g2).handler.attrs
          = l.handler.attrs.app
              (.cons l.groupFieldName (.s g1) (.cons l.groupFieldName (.s g2) .nil)))
    ∧ (∀ (ts : String) (l : SlogLogger) (g1 g2 : String) (L : Int) (msg : String)
          (kvs : List SVal),
        l.groupFieldName = l.handler.groupFieldName →
        slogLogEvents ts (slogWithGroup (slogWithGroup l g1) g2) L msg kvs
          = slogLogEvents ts (slogWithGroup l g1) L msg kvs)
    ∧ (∀ (level gfn g1 g2 : String) (ra : AList), g1 ≠ "" →
        selectGroup (slogNew level gfn).handler.groupFieldName
          (slogWithGroup (slogWithGroup (slogNew level gfn) g1) g2).handler.attrs ra
          = g1) := by
  refine ⟨?_, ?_, ?_⟩
  · intro l g1 g2
    show (l.handler.attrs.app (.cons l.groupFieldName (.s g1) .nil)).app
          (.cons l.groupFieldName (.s g2) .nil) = _
    rw [AList.app_assoc]
    rfl
  · intro ts l g1 g2 L msg kvs hg
    unfold slogLogEvents
    have hen : consoleEnabled (slogWithGroup (slogWithGroup l g1) g2).handler L
        = consoleEnabled (slogWithGroup l g1).handler L := rfl
    rw [hen]
    have hline : handleLine ts (slogWithGroup (slogWithGroup l g1) g2).handler
          { level := L, msg := msg, attrs := argsToAttrs kvs }
        = handleLine ts (slogWithGroup l g1).handler
          { level := L, msg := msg, attrs := argsToAttrs kvs } := by
      show handleLine ts
          { minLevel := l.handler.minLevel,
            attrs := (l.handler.attrs.app (.cons l.groupFieldName (.s g1) .nil)).app
              (.cons l.groupFieldName (.s g2) .nil),
            groups := l.handler.groups,
            groupFieldName := l.handler.groupFieldName } _
        = handleLine ts
          { minLevel := l.handler.minLevel,
            attrs := l.handler.attrs.app (.cons l.groupFieldName (.s g1) .nil),
            groups := l.handler.groups,
            groupFieldName := l.handler.groupFieldName } _
      unfold handleLine
      rw [hg] at *
      simp only [selectGroup_app_gfn, renderAttrs_gfn_cancel]
    rw [hline]
  · intro level gfn g1 g2 ra h
    simp [slogWithGroup, slogLoggerWith, consoleWithAttrs, slogNew, newConsoleHandler,
      argsToAttrs, AList.app, selectGroup, findGroupString, AList.find, valueString, h]

/-- Witness for C9 at a concrete derivation chain. -/
theorem repeated_withgroup_rendering_witness :
    (slogLogEvents "ts" (slogWithGroup (slogWithGroup (slogNew "info" "") "svc") "db")
        levelInfo "m" []
      = slogLogEvents "ts" (slogWithGroup (slogNew "info" "") "svc") levelInfo "m" [])
    ∧ selectGroup (slogNew "info" "").handler.groupFieldName
        (slogWithGroup (slogWithGroup (slogNew "info" "") "svc") "db").handler.attrs
        AList.nil = "svc" := by
  exact ⟨repeated_withgroup_rendering.2.1 "ts" (slogNew "info" "") "svc" "db"
           levelInfo "m" [] rfl,
         repeated_withgroup_rendering.2.2 "info" "" "svc" "db" AList.nil (by decide)⟩


/-- C5: with level=info and console format, `Info("server started", "port",
8080)` on the logger derived by `WithGroup("svc")` produces exactly one
write — the whole line in a single write call — consisting, in order, of
the timestamp segment, the coloured level code INF, the bracketed group
[svc], the message, the single attribute `port=8080`, and the trailing
newline, with nothing else in the line (the remaining bytes are the fixed
ANSI colour sequences). -/
theorem console_roundtrip_line (ts : String) :
    slogLogEvents ts (slogWithGroup (slogNew "info" "") "svc") levelInfo
        "server started" [.s "port", .i 8080]
      = [Ev.write (timeSeg ts
          ++ (esc ++ "[32m" ++ "INF" ++ esc ++ "[0m "
              ++ (esc ++ "[36m[" ++ "svc" ++ "]" ++ esc ++ "[0m "
                  ++ ("server started"
                      ++ (" " ++ esc ++ "[36m" ++ "port" ++ esc ++ "[0m=" ++ "8080"
                          ++ "\n")))))] := by
  have hen : consoleEnabled (slogWithGroup (slogNew "info" "") "svc").handler
      levelInfo = true := by decide
  simp only [slogLogEvents, hen, if_true]
  refine congrArg (fun x => [Ev.write x]) ?_
  unfold handleLine
  dsimp only
  simp only [String.append_assoc]
  refine congrArg (fun x => timeSeg ts ++ x) ?_
  decide


end LoggerRepo
